import Mathlib

/-!
Verification development for the world-monitor Tauri desktop shell
(`src-tauri/src/main.rs`).  The Rust source is shallowly embedded: pure
string functions become Lean functions over `String` / `List Char`, the
stateful sidecar manager becomes explicit state passing over an
environment record, and fallible operations return `Except String`.
-/

namespace WorldMonitor

/-! ## Path sanitisation (`sanitize_path_for_node`) -/

/-- Strip a literal character sequence from the front of a list of
characters, mirroring Rust `str::strip_prefix`: `some rest` when the
input starts with the given sequence, `none` otherwise. -/
def stripPre : List Char → List Char → Option (List Char)
  | [], s => some s
  | _ :: _, [] => none
  | p :: ps, c :: cs => if c = p then stripPre ps cs else none

/-- The characters of the Windows extended-length UNC marker `\\?\UNC\`. -/
def uncPreChars : List Char := ['\\', '\\', '?', '\\', 'U', 'N', 'C', '\\']

/-- The characters of the Windows extended-length marker `\\?\`. -/
def extPreChars : List Char := ['\\', '\\', '?', '\\']

/-- Embedding of `sanitize_path_for_node` at the character-list level:
first try to strip `\\?\UNC\` (re-rooting at `\\`), then `\\?\`,
otherwise return the input unchanged. -/
def sanitizeChars (s : List Char) : List Char :=
  match stripPre uncPreChars s with
  | some strippedUnc => '\\' :: '\\' :: strippedUnc
  | none =>
    match stripPre extPreChars s with
    | some stripped => stripped
    | none => s

/-- Embedding of `sanitize_path_for_node` on `String`. -/
def sanitizePathForNode (s : String) : String :=
  String.mk (sanitizeChars s.data)

theorem stripPre_eq_some_iff (p : List Char) :
    ∀ (s r : List Char), stripPre p s = some r ↔ s = p ++ r := by
  induction p with
  | nil =>
    intro s r
    simp [stripPre]
  | cons a ps ih =>
    intro s r
    cases s with
    | nil => simp [stripPre]
    | cons c cs =>
      by_cases hc : c = a
      · subst hc
        simp [stripPre, ih]
      · simp [stripPre, hc]

theorem stripPre_eq_none_iff (p s : List Char) :
    stripPre p s = none ↔ ¬ p <+: s := by
  constructor
  · intro h ⟨r, hr⟩
    rw [← hr] at h
    have := (stripPre_eq_some_iff p (p ++ r) r).mpr rfl
    rw [this] at h
    exact Option.noConfusion h
  · intro h
    cases hs : stripPre p s with
    | none => rfl
    | some r =>
      exact absurd ⟨r, ((stripPre_eq_some_iff p s r).mp hs).symm⟩ h

/-- C1: `sanitize_path_for_node` maps `\\?\UNC\rest` to `\\rest`, maps any
other path starting with `\\?\` to the path with that marker removed, and
leaves every other path unchanged. -/
theorem sanitizePathForNode_spec (s : String) :
    (∀ rest : List Char, s.data = uncPreChars ++ rest →
      (sanitizePathForNode s).data = '\\' :: '\\' :: rest) ∧
    (¬ uncPreChars <+: s.data → ∀ rest : List Char, s.data = extPreChars ++ rest →
      (sanitizePathForNode s).data = rest) ∧
    (¬ extPreChars <+: s.data → sanitizePathForNode s = s) := by
  refine ⟨?_, ?_, ?_⟩
  · intro rest hrest
    have h : stripPre uncPreChars s.data = some rest :=
      (stripPre_eq_some_iff _ _ _).mpr hrest
    simp [sanitizePathForNode, sanitizeChars, h]
  · intro hnot rest hrest
    have hu : stripPre uncPreChars s.data = none := (stripPre_eq_none_iff _ _).mpr hnot
    have h : stripPre extPreChars s.data = some rest :=
      (stripPre_eq_some_iff _ _ _).mpr hrest
    simp [sanitizePathForNode, sanitizeChars, hu, h]
  · intro hnot
    have hu : stripPre uncPreChars s.data = none := by
      rw [stripPre_eq_none_iff]
      intro ⟨r, hr⟩
      exact hnot ⟨['U', 'N', 'C', '\\'] ++ r, by rw [← hr]; simp [uncPreChars, extPreChars]⟩
    have he : stripPre extPreChars s.data = none := (stripPre_eq_none_iff _ _).mpr hnot
    show String.mk (sanitizeChars s.data) = s
    rw [sanitizeChars, hu, he]

theorem sanitizePathForNode_spec_witness :
    (sanitizePathForNode (String.mk (uncPreChars ++ ['s', 'r', 'v']))).data =
      '\\' :: '\\' :: ['s', 'r', 'v'] ∧
    (sanitizePathForNode (String.mk (extPreChars ++ ['C', ':']))).data = ['C', ':'] ∧
    sanitizePathForNode "C:x" = "C:x" :=
  ⟨(sanitizePathForNode_spec _).1 ['s', 'r', 'v'] rfl,
   (sanitizePathForNode_spec _).2.1 (by decide) ['C', ':'] rfl,
   (sanitizePathForNode_spec "C:x").2.2 (by decide)⟩

/-! ## URL allow-listing (`open_url`) -/

/-- The scheme and host of a parsed URL, the two observations `open_url`
makes of `reqwest::Url`.  The parser itself is an external crate and is a
parameter of the model. -/
structure UrlRec where
  scheme : String
  host : Option String
deriving DecidableEq

/-- The rejection message of `open_url`. -/
def onlyHttpsMsg : String := "Only https:// URLs are allowed (http:// only for localhost)"

/-- Embedding of `open_url`: `parse` models `Url::parse` (scheme and host
of the parse result), `render` models `Url::as_str`.  The second component
collects the arguments handed to `open_in_shell`. -/
def openUrl (parse : String → Option UrlRec) (render : UrlRec → String)
    (url : String) : Except String Unit × List String :=
  match parse url with
  | none => (.error "Invalid URL", [])
  | some parsed =>
    if parsed.scheme = "https" then (.ok (), [render parsed])
    else if parsed.scheme = "http" then
      if parsed.host = some "localhost" ∨ parsed.host = some "127.0.0.1" then
        (.ok (), [render parsed])
      else (.error onlyHttpsMsg, [])
    else (.error onlyHttpsMsg, [])

/-- The allow-list as the claim states it: https, or http on localhost. -/
def urlAllowed (u : UrlRec) : Bool :=
  u.scheme == "https" ||
    (u.scheme == "http" && (u.host == some "localhost" || u.host == some "127.0.0.1"))

/-- C7: `open_url` opens the URL exactly when it parses and is on the
allow-list (https, or http with host `localhost` / `127.0.0.1`); every
other input yields an error and opens nothing. -/
theorem openUrl_allowlist (parse : String → Option UrlRec)
    (render : UrlRec → String) (url : String) :
    (∀ u, parse url = some u →
      (urlAllowed u = true → openUrl parse render url = (.ok (), [render u])) ∧
      (urlAllowed u = false → openUrl parse render url = (.error onlyHttpsMsg, []))) ∧
    (parse url = none → openUrl parse render url = (.error "Invalid URL", [])) := by
  constructor
  · intro u hu
    constructor
    · intro hallow
      simp only [urlAllowed, Bool.or_eq_true, Bool.and_eq_true, beq_iff_eq] at hallow
      rcases hallow with hs | ⟨hs, hh⟩
      · simp [openUrl, hu, hs]
      · have hnot : u.scheme ≠ "https" := by rw [hs]; decide
        simp only [openUrl, hu, if_neg hnot, if_pos hs]
        rw [if_pos]
        rcases hh with h | h
        · exact Or.inl h
        · exact Or.inr h
    · intro hallow
      by_cases hs : u.scheme = "https"
      · exfalso; simp [urlAllowed, hs] at hallow
      · by_cases hh : u.scheme = "http"
        · by_cases hl : u.host = some "localhost" ∨ u.host = some "127.0.0.1"
          · exfalso
            simp [urlAllowed, hh] at hallow
            rcases hl with h | h <;> simp [h] at hallow
          · simp [openUrl, hu, hs, hh, hl]
        · simp [openUrl, hu, hs, hh]
  · intro hnone
    simp [openUrl, hnone]

theorem openUrl_allowlist_witness :
    openUrl (fun s => if s = "https://a" then some ⟨"https", some "a"⟩ else none)
      (fun u => u.scheme) "https://a" = (.ok (), ["https"]) ∧
    openUrl (fun s => if s = "https://a" then some ⟨"https", some "a"⟩ else none)
      (fun u => u.scheme) "ftp://x" = (.error "Invalid URL", []) :=
  ⟨((openUrl_allowlist _ _ "https://a").1 ⟨"https", some "a"⟩ (by decide)).1 (by decide),
   (openUrl_allowlist _ _ "ftp://x").2 (by decide)⟩

/-! ## Secrets cache (`SecretsCache`, `set_secret`, `delete_secret`) -/

/-- `SUPPORTED_SECRET_KEYS` from the source, in order. -/
def supportedSecretKeys : List String :=
  ["GROQ_API_KEY",
   "OPENROUTER_API_KEY",
   "FRED_API_KEY",
   "EIA_API_KEY",
   "CLOUDFLARE_API_TOKEN",
   "ACLED_ACCESS_TOKEN",
   "URLHAUS_AUTH_KEY",
   "OTX_API_KEY",
   "ABUSEIPDB_API_KEY",
   "WINGBITS_API_KEY",
   "WS_RELAY_URL",
   "VITE_OPENSKY_RELAY_URL",
   "OPENSKY_CLIENT_ID",
   "OPENSKY_CLIENT_SECRET",
   "AISSTREAM_API_KEY",
   "VITE_WS_RELAY_URL",
   "FINNHUB_API_KEY",
   "NASA_FIRMS_API_KEY",
   "OLLAMA_API_URL",
   "OLLAMA_MODEL",
   "WORLDMONITOR_API_KEY"]

/-- Rust `str::trim`, parameterised by the whitespace predicate `ws`
(Rust trims by `char::is_whitespace`): drop `ws` characters from both
ends of the string. -/
def rustTrim (ws : Char → Bool) (s : String) : String :=
  String.mk (List.rdropWhile ws (s.data.dropWhile ws))

/-- Association-list model of the `HashMap` / serde maps: lookup of the
first matching key. -/
def alGet {α : Type} (m : List (String × α)) (k : String) : Option α :=
  (m.find? (fun p => p.1 == k)).map (fun p => p.2)

/-- Map removal: drop every pair with the given key. -/
def alErase {α : Type} (m : List (String × α)) (k : String) : List (String × α) :=
  m.filter (fun p => !(p.1 == k))

/-- Map insertion with replacement, as `HashMap::insert`. -/
def alInsert {α : Type} (m : List (String × α)) (k : String) (v : α) :
    List (String × α) :=
  alErase m k ++ [(k, v)]

/-- The observable keychain state `SecretsCache::load_from_keychain` reads:
the parse of the consolidated `secrets-vault` entry (`none` when the entry,
its password, or its JSON parse fails) and the per-key legacy entries. -/
structure Keychain where
  vaultParsed : Option (List (String × String))
  oldVal : String → Option String

/-- The vault branch of `load_from_keychain`: keep supported keys whose
value does not trim to empty, storing the trimmed value. -/
def loadVaultBranch (ws : Char → Bool) (vault : List (String × String)) :
    List (String × String) :=
  (vault.filter (fun p =>
      supportedSecretKeys.contains p.1 && !(rustTrim ws p.2 == ""))).map
    (fun p => (p.1, rustTrim ws p.2))

/-- The migration branch of `load_from_keychain`: walk the supported keys,
inserting each legacy value that does not trim to empty.  The subsequent
vault write and legacy-entry cleanup do not change the returned map. -/
def loadMigrationBranch (ws : Char → Bool) (oldVal : String → Option String) :
    List (String × String) :=
  supportedSecretKeys.foldl (fun acc key =>
    match oldVal key with
    | some v =>
      let trimmed := rustTrim ws v
      if trimmed = "" then acc else alInsert acc key trimmed
    | none => acc) []

/-- Embedding of `SecretsCache::load_from_keychain`. -/
def loadFromKeychain (ws : Char → Bool) (kc : Keychain) : List (String × String) :=
  match kc.vaultParsed with
  | some vault => loadVaultBranch ws vault
  | none => loadMigrationBranch ws kc.oldVal

/-- The error message `set_secret` / `delete_secret` return on a key
outside `SUPPORTED_SECRET_KEYS`. -/
def unsupportedMsg (key : String) : String := "Unsupported secret key: " ++ key

/-- The proposed map `set_secret` builds before persisting: remove the key
when the value trims to empty, otherwise insert the trimmed value. -/
def proposedSet (ws : Char → Bool) (secrets : List (String × String))
    (key value : String) : List (String × String) :=
  let trimmed := rustTrim ws value
  if trimmed = "" then alErase secrets key else alInsert secrets key trimmed

/-- Embedding of `set_secret`; `save` models `save_vault` (keychain
persistence).  The vault is persisted first and the cache committed only
on success. -/
def setSecret (ws : Char → Bool) (save : List (String × String) → Except String Unit)
    (secrets : List (String × String)) (key value : String) :
    Except String Unit × List (String × String) :=
  if key ∈ supportedSecretKeys then
    match save (proposedSet ws secrets key value) with
    | .ok _ => (.ok (), proposedSet ws secrets key value)
    | .error e => (.error e, secrets)
  else (.error (unsupportedMsg key), secrets)

/-- Embedding of `delete_secret`. -/
def deleteSecret (save : List (String × String) → Except String Unit)
    (secrets : List (String × String)) (key : String) :
    Except String Unit × List (String × String) :=
  if key ∈ supportedSecretKeys then
    match save (alErase secrets key) with
    | .ok _ => (.ok (), alErase secrets key)
    | .error e => (.error e, secrets)
  else (.error (unsupportedMsg key), secrets)

theorem dropWhile_eq_self_of_isPre {α : Type} {p : α → Bool} {l l' : List α}
    (h : List.dropWhile p l = l) (hpre : l' <+: l) :
    List.dropWhile p l' = l' := by
  cases l' with
  | nil => simp
  | cons a t =>
    obtain ⟨s, hs⟩ := hpre
    rw [← hs] at h
    rw [List.cons_append, List.dropWhile_cons] at h
    rw [List.dropWhile_cons]
    by_cases hp : p a = true
    · exfalso
      rw [if_pos hp] at h
      have hlen := congrArg List.length h
      have hle : (List.dropWhile p (t ++ s)).length ≤ (t ++ s).length :=
        (List.dropWhile_suffix p).length_le
      rw [hlen] at hle
      simp at hle
    · rw [if_neg hp]

theorem rustTrimChars_idem (ws : Char → Bool) (l : List Char) :
    List.rdropWhile ws (List.dropWhile ws
      (List.rdropWhile ws (List.dropWhile ws l))) =
    List.rdropWhile ws (List.dropWhile ws l) := by
  have hm : List.dropWhile ws (List.dropWhile ws l) = List.dropWhile ws l :=
    List.dropWhile_idempotent ws l
  have h1 : List.dropWhile ws (List.rdropWhile ws (List.dropWhile ws l)) =
      List.rdropWhile ws (List.dropWhile ws l) :=
    dropWhile_eq_self_of_isPre hm (List.rdropWhile_prefix ws _)
  rw [h1, List.rdropWhile_idempotent]

theorem rustTrim_idem (ws : Char → Bool) (s : String) :
    rustTrim ws (rustTrim ws s) = rustTrim ws s :=
  congrArg String.mk (rustTrimChars_idem ws s.data)

theorem contains_iff_memKey (l : List String) (k : String) :
    l.contains k = true ↔ k ∈ l := by
  simp [List.contains, List.elem_iff]

/-- The C10 invariant: every cached secret has a supported key and a
trimmed, non-empty value. -/
def secretsInv (ws : Char → Bool) (m : List (String × String)) : Prop :=
  ∀ p ∈ m, p.1 ∈ supportedSecretKeys ∧ rustTrim ws p.2 = p.2 ∧ p.2 ≠ ""

theorem secretsInv_alErase {ws : Char → Bool} {m : List (String × String)}
    (hm : secretsInv ws m) (k : String) : secretsInv ws (alErase m k) := by
  intro p hp
  exact hm p (List.mem_of_mem_filter hp)

theorem secretsInv_alInsert {ws : Char → Bool} {m : List (String × String)}
    (hm : secretsInv ws m) {k v : String}
    (hk : k ∈ supportedSecretKeys) (hv : rustTrim ws v = v) (hne : v ≠ "") :
    secretsInv ws (alInsert m k v) := by
  intro p hp
  rcases List.mem_append.mp hp with h | h
  · exact hm p (List.mem_of_mem_filter h)
  · rcases List.mem_singleton.mp h with rfl
    exact ⟨hk, hv, hne⟩

theorem alGet_alInsert_self {α : Type} (m : List (String × α)) (k : String) (v : α) :
    alGet (alInsert m k v) k = some v := by
  rw [alGet, alInsert, List.find?_append]
  have hnone : (alErase m k).find? (fun p => p.1 == k) = none := by
    rw [List.find?_eq_none]
    intro p hp
    have := List.of_mem_filter hp
    simpa using this
  simp [hnone, alErase]

theorem alGet_alErase_self {α : Type} (m : List (String × α)) (k : String) :
    alGet (alErase m k) k = none := by
  rw [alGet]
  have hnone : (alErase m k).find? (fun p => p.1 == k) = none := by
    rw [List.find?_eq_none]
    intro p hp
    have := List.of_mem_filter hp
    simpa using this
  simp [hnone]

theorem secretsInv_loadVault (ws : Char → Bool) (vault : List (String × String)) :
    secretsInv ws (loadVaultBranch ws vault) := by
  intro p hp
  rw [loadVaultBranch, List.mem_map] at hp
  obtain ⟨q, hq, rfl⟩ := hp
  have hcond := List.of_mem_filter hq
  rw [Bool.and_eq_true] at hcond
  obtain ⟨hk, hv⟩ := hcond
  refine ⟨?_, ?_, ?_⟩
  · show q.1 ∈ supportedSecretKeys
    exact (contains_iff_memKey _ _).mp hk
  · show rustTrim ws (rustTrim ws q.2) = rustTrim ws q.2
    exact rustTrim_idem ws q.2
  · show rustTrim ws q.2 ≠ ""
    intro hemp
    rw [hemp] at hv
    simp at hv

theorem secretsInv_loadMigration (ws : Char → Bool) (oldVal : String → Option String) :
    secretsInv ws (loadMigrationBranch ws oldVal) := by
  rw [loadMigrationBranch]
  have main : ∀ (keys : List String), (∀ k ∈ keys, k ∈ supportedSecretKeys) →
      ∀ (acc : List (String × String)), secretsInv ws acc →
      secretsInv ws (keys.foldl (fun acc key =>
        match oldVal key with
        | some v =>
          let trimmed := rustTrim ws v
          if trimmed = "" then acc else alInsert acc key trimmed
        | none => acc) acc) := by
    intro keys
    induction keys with
    | nil => intro _ acc hacc; exact hacc
    | cons k ks ih =>
      intro hks acc hacc
      rw [List.foldl_cons]
      refine ih (fun x hx => hks x (List.mem_cons_of_mem _ hx)) _ ?_
      cases hov : oldVal k with
      | none => exact hacc
      | some v =>
        simp only
        by_cases htr : rustTrim ws v = ""
        · rw [if_pos htr]; exact hacc
        · rw [if_neg htr]
          exact secretsInv_alInsert hacc (hks k (List.mem_cons_self k ks))
            (rustTrim_idem ws v) htr
  exact main supportedSecretKeys (fun _ h => h) [] (by intro p hp; cases hp)

/-- C9: `set_secret` and `delete_secret` persist the proposed vault before
committing: when `save_vault` fails, the operation returns that error and
the in-memory secrets map is unchanged. -/
theorem secret_ops_atomic (ws : Char → Bool)
    (save : List (String × String) → Except String Unit)
    (secrets : List (String × String)) (key value e : String)
    (hk : key ∈ supportedSecretKeys)
    (hs : save (proposedSet ws secrets key value) = .error e)
    (hd : save (alErase secrets key) = .error e) :
    setSecret ws save secrets key value = (.error e, secrets) ∧
    deleteSecret save secrets key = (.error e, secrets) := by
  constructor
  · unfold setSecret
    rw [if_pos hk, hs]
  · unfold deleteSecret
    rw [if_pos hk, hd]

theorem secret_ops_atomic_witness :
    setSecret (fun c => c == ' ') (fun _ => .error "boom") [] "GROQ_API_KEY" "x" =
      (.error "boom", []) ∧
    deleteSecret (fun _ => .error "boom") [] "GROQ_API_KEY" =
      (.error "boom", []) :=
  secret_ops_atomic (fun c => c == ' ') (fun _ => .error "boom") [] "GROQ_API_KEY" "x"
    "boom" (by decide) rfl rfl

/-- C10: the secrets-cache invariant (supported key, trimmed non-empty
value) holds after `load_from_keychain` and is preserved by `set_secret`
and `delete_secret`; `set_secret` rejects unsupported keys, stores the
trimmed value, and removes the key when the value trims to empty. -/
theorem secrets_cache_invariant (ws : Char → Bool) (kc : Keychain)
    (save : List (String × String) → Except String Unit)
    (m : List (String × String)) (key value : String)
    (hm : secretsInv ws m) :
    secretsInv ws (loadFromKeychain ws kc) ∧
    secretsInv ws (setSecret ws save m key value).2 ∧
    secretsInv ws (deleteSecret save m key).2 ∧
    (key ∉ supportedSecretKeys →
      (setSecret ws save m key value).1 = .error (unsupportedMsg key)) ∧
    (key ∈ supportedSecretKeys →
      save (proposedSet ws m key value) = .ok () →
      (rustTrim ws value ≠ "" →
        alGet (setSecret ws save m key value).2 key = some (rustTrim ws value)) ∧
      (rustTrim ws value = "" →
        alGet (setSecret ws save m key value).2 key = none)) := by
  have hproposed : key ∈ supportedSecretKeys → secretsInv ws (proposedSet ws m key value) := by
    intro hk
    rw [proposedSet]
    by_cases htr : rustTrim ws value = ""
    · rw [if_pos htr]; exact secretsInv_alErase hm key
    · rw [if_neg htr]
      exact secretsInv_alInsert hm hk (rustTrim_idem ws value) htr
  refine ⟨?_, ?_, ?_, ?_, ?_⟩
  · rw [loadFromKeychain]
    cases kc.vaultParsed with
    | some vault => exact secretsInv_loadVault ws vault
    | none => exact secretsInv_loadMigration ws kc.oldVal
  · unfold setSecret
    by_cases hk : key ∈ supportedSecretKeys
    · rw [if_pos hk]
      cases hsv : save (proposedSet ws m key value) with
      | ok u => cases u; exact hproposed hk
      | error e => exact hm
    · rw [if_neg hk]; exact hm
  · unfold deleteSecret
    by_cases hk : key ∈ supportedSecretKeys
    · rw [if_pos hk]
      cases hsv : save (alErase m key) with
      | ok u => cases u; exact secretsInv_alErase hm key
      | error e => exact hm
    · rw [if_neg hk]; exact hm
  · intro hk
    unfold setSecret
    rw [if_neg hk]
  · intro hk hsv
    have hres : (setSecret ws save m key value).2 = proposedSet ws m key value := by
      unfold setSecret
      rw [if_pos hk, hsv]
    constructor
    · intro htr
      rw [hres, proposedSet, if_neg htr]
      exact alGet_alInsert_self m key (rustTrim ws value)
    · intro htr
      rw [hres, proposedSet, if_pos htr]
      exact alGet_alErase_self m key

theorem secrets_cache_invariant_witness :
    secretsInv (fun c => c == ' ')
      (setSecret (fun c => c == ' ') (fun _ => .ok ()) [] "GROQ_API_KEY" " y ").2 ∧
    alGet (setSecret (fun c => c == ' ') (fun _ => .ok ()) [] "GROQ_API_KEY" " y ").2
        "GROQ_API_KEY" =
      some (rustTrim (fun c => c == ' ') " y ") := by
  have h := secrets_cache_invariant (fun c => c == ' ')
    ⟨none, fun _ => none⟩ (fun _ => .ok ()) [] "GROQ_API_KEY" " y "
    (by intro p hp; cases hp)
  exact ⟨h.2.1, (h.2.2.2.2 (by decide) rfl).1 (by decide)⟩

/-! ## Persistent JSON cache (`read_cache_entry`, `write_cache_entry`) -/

/-- JSON values, the model of `serde_json::Value`. -/
inductive JVal where
  | null
  | bool (b : Bool)
  | num (n : Int)
  | str (s : String)
  | arr (xs : List JVal)
  | obj (fields : List (String × JVal))

/-- The root object `write_cache_entry` starts from: the parse of the
existing cache file when it exists and parses to an object, the empty
object otherwise.  `parse` models `serde_json::from_str`. -/
def cacheRootOf (parse : String → Option JVal) (file : Option String) :
    List (String × JVal) :=
  match file with
  | some contents =>
    match parse contents with
    | some (JVal.obj o) => o
    | _ => []
  | none => []

/-- The file-system outcomes a cache operation observes, one flag per
fallible step of the source: `cache_file_path` (app-data-dir resolution
plus `create_dir_all`), the cache file's content (`none` when the file
does not exist), `fs::read_to_string` of an existing file,
`serde_json::to_string_pretty`, and `fs::write`. -/
structure CacheFs where
  cachePathOk : Bool
  file : Option String
  readOk : Bool
  serializeOk : Bool
  writeOk : Bool
deriving DecidableEq

/-- Embedding of `read_cache_entry`: fail when `cache_file_path` fails,
return `Ok(None)` when the file does not exist, fail when reading the
existing file fails; a file that fails to parse is treated as an empty
object and a non-object JSON root yields `Ok(None)`. -/
def readCacheEntry (parse : String → Option JVal) (fs : CacheFs)
    (key : String) : Except String (Option JVal) :=
  if ¬ fs.cachePathOk then .error "Failed to resolve cache path"
  else
    match fs.file with
    | none => .ok none
    | some contents =>
      if ¬ fs.readOk then .error "Failed to read cache store"
      else
        match (parse contents).getD (JVal.obj []) with
        | JVal.obj root => .ok (alGet root key)
        | _ => .ok none

/-- Embedding of `write_cache_entry`; `serPretty` models
`serde_json::to_string_pretty`.  In source order it can fail in
`cache_file_path`, in `fs::read_to_string` of an existing cache file, on
an invalid payload, in `to_string_pretty`, and in `fs::write`.  On
success the result carries the new cache-file content. -/
def writeCacheEntry (parse : String → Option JVal) (serPretty : JVal → String)
    (fs : CacheFs) (key value : String) : Except String String :=
  if ¬ fs.cachePathOk then .error "Failed to resolve cache path"
  else if fs.file.isSome ∧ ¬ fs.readOk then .error "Failed to read cache store"
  else
    match parse value with
    | none => .error "Invalid cache payload JSON"
    | some parsedValue =>
      if ¬ fs.serializeOk then .error "Failed to serialize cache store"
      else if ¬ fs.writeOk then .error "Failed to write cache store"
      else .ok (serPretty (JVal.obj (alInsert (cacheRootOf parse fs.file) key parsedValue)))

/-- C8 counter-example: a payload that is valid JSON on which
`write_cache_entry` nevertheless fails, because `fs::write` fails — so
`write_cache_entry` does not fail exactly when the payload is invalid
JSON. -/
theorem cache_store_spec_counterexample :
    (fun s => if s = "1" then some (JVal.num 1) else none) "1" = some (JVal.num 1) ∧
    writeCacheEntry (fun s => if s = "1" then some (JVal.num 1) else none)
      (fun _ => "X") ⟨true, none, true, true, false⟩ "k" "1" =
      .error "Failed to write cache store" :=
  ⟨rfl, rfl⟩

/-- C8 (amended): given that the file-system steps succeed —
`cache_file_path` resolves, reading an existing cache file succeeds, and
serialization and `fs::write` succeed — `write_cache_entry` fails exactly
when the payload is not valid JSON; after a successful write of
`(key, value)`, `read_cache_entry key` returns the JSON value parsed from
`value` (whenever the path resolves and the read succeeds); and reading
when the cache file does not exist returns `Ok(None)` (whenever the path
resolves).  `hround` is the serde round-trip property for the written
object. -/
theorem cache_store_spec (parse : String → Option JVal) (serPretty : JVal → String)
    (fs : CacheFs) (key value : String) (v : JVal)
    (hpath : fs.cachePathOk = true)
    (hread : fs.readOk = true)
    (hser : fs.serializeOk = true)
    (hwrite : fs.writeOk = true)
    (hv : parse value = some v)
    (hround : parse (serPretty (JVal.obj (alInsert (cacheRootOf parse fs.file) key v))) =
      some (JVal.obj (alInsert (cacheRootOf parse fs.file) key v))) :
    writeCacheEntry parse serPretty fs key value =
      .ok (serPretty (JVal.obj (alInsert (cacheRootOf parse fs.file) key v))) ∧
    (∀ fs' : CacheFs, fs'.cachePathOk = true → fs'.readOk = true →
      fs'.file = some (serPretty (JVal.obj (alInsert (cacheRootOf parse fs.file) key v))) →
      readCacheEntry parse fs' key = .ok (some v)) ∧
    (∀ g : CacheFs, g.cachePathOk = true → g.readOk = true →
      g.serializeOk = true → g.writeOk = true → ∀ k val,
      ((∃ e, writeCacheEntry parse serPretty g k val = .error e) ↔ parse val = none)) ∧
    (∀ g : CacheFs, g.cachePathOk = true → g.file = none →
      readCacheEntry parse g key = .ok none) := by
  refine ⟨?_, ?_, ?_, ?_⟩
  · simp [writeCacheEntry, hpath, hread, hser, hwrite, hv]
  · intro fs' h1 h2 h3
    simp [readCacheEntry, h1, h2, h3, hround, alGet_alInsert_self]
  · intro g hgp hgr hgs hgw k val
    constructor
    · intro ⟨e, he⟩
      cases hp : parse val with
      | none => rfl
      | some pv =>
        exfalso
        simp [writeCacheEntry, hgp, hgr, hgs, hgw, hp] at he
    · intro hnone
      refine ⟨"Invalid cache payload JSON", ?_⟩
      simp [writeCacheEntry, hgp, hgr, hnone]
  · intro g h1 h2
    simp [readCacheEntry, h1, h2]

theorem cache_store_spec_witness :
    readCacheEntry
      (fun s => if s = "1" then some (JVal.num 1)
        else if s = "OBJ" then some (JVal.obj [("k", JVal.num 1)]) else none)
      ⟨true, some "OBJ", true, true, true⟩ "k" = .ok (some (JVal.num 1)) ∧
    writeCacheEntry
      (fun s => if s = "1" then some (JVal.num 1)
        else if s = "OBJ" then some (JVal.obj [("k", JVal.num 1)]) else none)
      (fun _ => "OBJ") ⟨true, none, true, true, true⟩ "k" "1" = .ok "OBJ" := by
  have h := cache_store_spec
    (fun s => if s = "1" then some (JVal.num 1)
      else if s = "OBJ" then some (JVal.obj [("k", JVal.num 1)]) else none)
    (fun _ => "OBJ") ⟨true, none, true, true, true⟩ "k" "1" (JVal.num 1)
    rfl rfl rfl rfl rfl rfl
  exact ⟨h.2.1 ⟨true, some "OBJ", true, true, true⟩ rfl rfl rfl, h.1⟩

/-! ## Sidecar lifecycle (`local_api_paths`, `resolve_node_binary`,
`start_local_api`, `stop_local_api`, run events) -/

/-- A spawned child process (`std::process::Child`), identified by pid. -/
structure Child where
  pid : Nat
deriving DecidableEq

/-- `LocalApiState`: a slot for at most one child and one token. -/
structure ApiState where
  child : Option Child
  token : Option String
deriving DecidableEq

/-- Everything a sidecar start observes about the outside world:
build flags, the Tauri path resolver, the file system, process
environment variables, and the outcome of the fallible I/O steps. -/
structure Env where
  /-- `cfg!(debug_assertions)` -/
  debugAssertions : Bool
  /-- `cfg!(windows)` -/
  windows : Bool
  /-- `app.path().resource_dir()`, `none` on error -/
  resourceDir : Option String
  /-- `CARGO_MANIFEST_DIR` -/
  manifestDir : String
  /-- the parent directory of `CARGO_MANIFEST_DIR` -/
  manifestParent : Option String
  /-- `Path::is_file` -/
  isFile : String → Bool
  /-- `Path::exists` -/
  pathExists : String → Bool
  /-- `Path::parent` as a path string -/
  parentOf : String → Option String
  /-- the `LOCAL_API_NODE_BIN` environment variable -/
  localApiNodeBin : Option String
  /-- the directories of `PATH` in order, `none` when `PATH` is unset -/
  pathDirs : Option (List String)
  /-- whether opening and cloning the sidecar log file succeeds -/
  logOpenOk : Bool
  /-- the token `generate_local_token` would produce now -/
  freshToken : String
  /-- the secrets cache contents -/
  secrets : List (String × String)
  /-- `option_env!("CONVEX_URL")` (build-time) -/
  convexBuild : Option String
  /-- `env::var("CONVEX_URL")` (runtime) -/
  convexRuntime : Option String
  /-- the child `Command::spawn` would return, `none` on spawn failure -/
  spawnResult : Option Child

/-- The platform path separator `PathBuf::join` inserts. -/
def pathSep (windows : Bool) : String := if windows then "\\" else "/"

/-- `PathBuf::join`. -/
def pjoin (windows : Bool) (a b : String) : String := a ++ pathSep windows ++ b

/-- The platform Node binary name. -/
def nodeName (windows : Bool) : String := if windows then "node.exe" else "node"

/-- The fixed list of common Node install locations. -/
def commonNodeLocations (windows : Bool) : List String :=
  if windows then
    ["C:\\Program Files\\nodejs\\node.exe",
     "C:\\Program Files (x86)\\nodejs\\node.exe"]
  else
    ["/opt/homebrew/bin/node",
     "/usr/local/bin/node",
     "/usr/bin/node",
     "/opt/local/bin/node"]

/-- `resource_dir().unwrap_or_else(|_| PathBuf::from("."))`. -/
def resourceDirOrDot (e : Env) : String := e.resourceDir.getD "."

/-- The sidecar script path chosen by `local_api_paths`. -/
def sidecarScriptPath (e : Env) : String :=
  if e.debugAssertions then pjoin e.windows e.manifestDir "sidecar/local-api-server.mjs"
  else pjoin e.windows (resourceDirOrDot e) "sidecar/local-api-server.mjs"

/-- The API resource root chosen by `local_api_paths`. -/
def apiDirRoot (e : Env) : String :=
  if e.debugAssertions then e.manifestParent.getD "."
  else if e.pathExists (pjoin e.windows (resourceDirOrDot e) "api") then
    resourceDirOrDot e
  else if e.pathExists
      (pjoin e.windows (pjoin e.windows (resourceDirOrDot e) "_up_") "api") then
    pjoin e.windows (resourceDirOrDot e) "_up_"
  else resourceDirOrDot e

/-- Embedding of `local_api_paths`: `(sidecar_script, api_dir_root)`. -/
def localApiPaths (e : Env) : String × String := (sidecarScriptPath e, apiDirRoot e)

/-- The bundled Node binary location `resource_dir/sidecar/node/<node>`. -/
def bundledNodePath (e : Env) (rd : String) : String :=
  pjoin e.windows (pjoin e.windows (pjoin e.windows rd "sidecar") "node") (nodeName e.windows)

/-- The common-locations phase of `resolve_node_binary`. -/
def resolveNodeFromCommon (e : Env) : Option String :=
  (commonNodeLocations e.windows).find? e.isFile

/-- The `PATH` loop of `resolve_node_binary`: first directory whose
joined node binary is a file, falling through to the common locations. -/
def resolveNodeFromPathDirs (e : Env) : List String → Option String
  | [] => resolveNodeFromCommon e
  | d :: rest =>
    if e.isFile (pjoin e.windows d (nodeName e.windows)) then
      some (pjoin e.windows d (nodeName e.windows))
    else resolveNodeFromPathDirs e rest

/-- The `PATH` phase of `resolve_node_binary` (skipped when `PATH` is unset). -/
def resolveNodeFromPath (e : Env) : Option String :=
  match e.pathDirs with
  | some dirs => resolveNodeFromPathDirs e dirs
  | none => resolveNodeFromCommon e

/-- The bundled-binary phase of `resolve_node_binary` (release builds only). -/
def resolveNodeBundled (e : Env) : Option String :=
  if e.debugAssertions then resolveNodeFromPath e
  else
    match e.resourceDir with
    | some rd =>
      if e.isFile (bundledNodePath e rd) then some (bundledNodePath e rd)
      else resolveNodeFromPath e
    | none => resolveNodeFromPath e

/-- Embedding of `resolve_node_binary`: explicit `LOCAL_API_NODE_BIN`
first (skipped with a warning when not a file), then the bundled binary,
then `PATH`, then common locations. -/
def resolveNodeBinary (e : Env) : Option String :=
  match e.localApiNodeBin with
  | some p => if e.isFile p then some p else resolveNodeBundled e
  | none => resolveNodeBundled e

/-- The candidate list in the order the claim states it. -/
def nodeCandidates (e : Env) : List String :=
  (match e.localApiNodeBin with | some p => [p] | none => []) ++
  (if e.debugAssertions then []
   else
     match e.resourceDir with
     | some rd => [bundledNodePath e rd]
     | none => []) ++
  ((e.pathDirs.getD []).map (fun d => pjoin e.windows d (nodeName e.windows))) ++
  commonNodeLocations e.windows

theorem resolveNodeFromPathDirs_eq_find (e : Env) (dirs : List String) :
    resolveNodeFromPathDirs e dirs =
      ((dirs.map (fun d => pjoin e.windows d (nodeName e.windows))).find? e.isFile).or
        (resolveNodeFromCommon e) := by
  induction dirs with
  | nil => simp [resolveNodeFromPathDirs]
  | cons d rest ih =>
    rw [resolveNodeFromPathDirs, List.map_cons, List.find?_cons]
    by_cases h : e.isFile (pjoin e.windows d (nodeName e.windows))
    · simp [h]
    · rw [Bool.not_eq_true] at h
      simp [h, ih]

/-- C3: `resolve_node_binary` returns the first candidate, in the fixed
order `LOCAL_API_NODE_BIN`, bundled binary (release only), `PATH`
directories, common locations, that is an existing file, and `none`
exactly when no candidate is an existing file. -/
theorem resolve_node_binary_order (e : Env) :
    resolveNodeBinary e = (nodeCandidates e).find? e.isFile ∧
    (resolveNodeBinary e = none ↔ ∀ c ∈ nodeCandidates e, e.isFile c = false) := by
  have hpath : resolveNodeFromPath e =
      (((e.pathDirs.getD []).map (fun d => pjoin e.windows d (nodeName e.windows))).find?
        e.isFile).or (resolveNodeFromCommon e) := by
    cases hp : e.pathDirs with
    | some dirs =>
      rw [resolveNodeFromPath, hp]
      show resolveNodeFromPathDirs e dirs = _
      rw [resolveNodeFromPathDirs_eq_find]
      rfl
    | none => simp [resolveNodeFromPath, hp]
  have hbundled : resolveNodeBundled e =
      ((if e.debugAssertions then ([] : List String)
        else
          match e.resourceDir with
          | some rd => [bundledNodePath e rd]
          | none => []).find? e.isFile).or (resolveNodeFromPath e) := by
    rw [resolveNodeBundled]
    by_cases hd : e.debugAssertions
    · simp [hd]
    · rw [if_neg hd, if_neg hd]
      cases hr : e.resourceDir with
      | some rd =>
        rw [List.find?_cons]
        by_cases hf : e.isFile (bundledNodePath e rd)
        · simp [hf]
        · rw [Bool.not_eq_true] at hf
          simp [hf]
      | none => simp
  have hmain : resolveNodeBinary e = (nodeCandidates e).find? e.isFile := by
    rw [resolveNodeBinary, nodeCandidates, List.find?_append, List.find?_append,
      List.find?_append]
    cases hb : e.localApiNodeBin with
    | some p =>
      show (if e.isFile p = true then some p else resolveNodeBundled e) = _
      by_cases hf : e.isFile p
      · simp [hf, Option.or]
      · rw [Bool.not_eq_true] at hf
        simp [hf, hbundled, hpath, Option.or_assoc, resolveNodeFromCommon]
    | none =>
      show resolveNodeBundled e = _
      simp [hbundled, hpath, Option.or_assoc, resolveNodeFromCommon]
  refine ⟨hmain, ?_⟩
  rw [hmain, List.find?_eq_none]
  constructor
  · intro h c hc
    have := h c hc
    simpa using this
  · intro h c hc
    simp [h c hc]

/-- C4: in release builds `local_api_paths` falls back for the API root:
`resource_dir` when `resource_dir/api` exists, else `resource_dir/_up_`
when `resource_dir/_up_/api` exists, else `resource_dir`; the sidecar
script is always `resource_dir/sidecar/local-api-server.mjs`. -/
theorem local_api_paths_release (e : Env) (h : e.debugAssertions = false) :
    (localApiPaths e).1 =
      pjoin e.windows (resourceDirOrDot e) "sidecar/local-api-server.mjs" ∧
    (e.pathExists (pjoin e.windows (resourceDirOrDot e) "api") = true →
      (localApiPaths e).2 = resourceDirOrDot e) ∧
    (e.pathExists (pjoin e.windows (resourceDirOrDot e) "api") = false →
     e.pathExists (pjoin e.windows (pjoin e.windows (resourceDirOrDot e) "_up_") "api")
        = true →
      (localApiPaths e).2 = pjoin e.windows (resourceDirOrDot e) "_up_") ∧
    (e.pathExists (pjoin e.windows (resourceDirOrDot e) "api") = false →
     e.pathExists (pjoin e.windows (pjoin e.windows (resourceDirOrDot e) "_up_") "api")
        = false →
      (localApiPaths e).2 = resourceDirOrDot e) := by
  refine ⟨?_, ?_, ?_, ?_⟩
  · show sidecarScriptPath e = _
    rw [sidecarScriptPath, if_neg (by rw [h]; intro hc; cases hc)]
  · intro h1
    show apiDirRoot e = _
    rw [apiDirRoot, if_neg (by rw [h]; intro hc; cases hc), if_pos h1]
  · intro h1 h2
    show apiDirRoot e = _
    rw [apiDirRoot, if_neg (by rw [h]; intro hc; cases hc),
      if_neg (by rw [h1]; intro hc; cases hc), if_pos h2]
  · intro h1 h2
    show apiDirRoot e = _
    rw [apiDirRoot, if_neg (by rw [h]; intro hc; cases hc),
      if_neg (by rw [h1]; intro hc; cases hc),
      if_neg (by rw [h2]; intro hc; cases hc)]

/-- A concrete release-build environment used by the closed witnesses. -/
def sampleEnv : Env where
  debugAssertions := false
  windows := false
  resourceDir := some "/res"
  manifestDir := "/src/src-tauri"
  manifestParent := some "/src"
  isFile := fun p => p == "/usr/bin/node"
  pathExists := fun p => p == "/res/sidecar/local-api-server.mjs" || p == "/res/api"
  parentOf := fun _ => some "/res/sidecar"
  localApiNodeBin := none
  pathDirs := some []
  logOpenOk := true
  freshToken := "tok0"
  secrets := [("GROQ_API_KEY", "gsk")]
  convexBuild := none
  convexRuntime := none
  spawnResult := some ⟨7⟩

theorem resolve_node_binary_order_witness :
    resolveNodeBinary sampleEnv = (nodeCandidates sampleEnv).find? sampleEnv.isFile ∧
    resolveNodeBinary sampleEnv = some "/usr/bin/node" :=
  ⟨(resolve_node_binary_order sampleEnv).1, by decide⟩

theorem local_api_paths_release_witness :
    (localApiPaths sampleEnv).1 = "/res/sidecar/local-api-server.mjs" ∧
    (localApiPaths sampleEnv).2 = "/res" :=
  ⟨by rw [(local_api_paths_release sampleEnv rfl).1]; rfl,
   (local_api_paths_release sampleEnv rfl).2.1 (by decide)⟩

/-! ## Starting and stopping the sidecar -/

/-- `LOCAL_API_PORT`. -/
def localApiPort : String := "46123"

/-- What `start_local_api` hands to `Command::spawn`: program, arguments,
environment additions in insertion order, working directory. -/
structure SpawnRec where
  program : String
  args : List String
  envs : List (String × String)
  cwd : Option String
deriving DecidableEq

/-- Lookup in a `Command` environment list: the latest insertion of a key
wins, as repeated `Command::env` calls override. -/
def envGet : List (String × String) → String → Option String
  | [], _ => none
  | p :: rest, k =>
    match envGet rest k with
    | some v => some v
    | none => if p.1 == k then some p.2 else none

/-- The `CONVEX_URL` injection: build-time value first, runtime fallback. -/
def convexEnvEntry (e : Env) : List (String × String) :=
  match e.convexBuild with
  | some url => [("CONVEX_URL", url)]
  | none =>
    match e.convexRuntime with
    | some url => [("CONVEX_URL", url)]
    | none => []

/-- The environment additions `start_local_api` makes, in insertion order:
the four `LOCAL_API_*` variables, then every cached secret, then
`CONVEX_URL` when available. -/
def sidecarEnvList (e : Env) (token : String) : List (String × String) :=
  [("LOCAL_API_PORT", localApiPort),
   ("LOCAL_API_RESOURCE_DIR", sanitizePathForNode (apiDirRoot e)),
   ("LOCAL_API_MODE", "tauri-sidecar"),
   ("LOCAL_API_TOKEN", token)] ++ e.secrets ++ convexEnvEntry e

/-- Embedding of `start_local_api` over `Env` and the `LocalApiState`:
returns the command result, the updated state, and the spawn (if one
happened).  The token slot is filled on first use and reused afterwards;
the child slot is only written on a successful spawn. -/
def startLocalApi (e : Env) (st : ApiState) :
    Except String Unit × ApiState × Option SpawnRec :=
  match st.child with
  | some _ => (.ok (), st, none)
  | none =>
    if ¬ e.pathExists (sidecarScriptPath e) then
      (.error ("Local API sidecar script missing at " ++ sidecarScriptPath e), st, none)
    else
      match resolveNodeBinary e with
      | none =>
        (.error "Node.js executable not found. Install Node 18+ or set LOCAL_API_NODE_BIN",
         st, none)
      | some nodeBinary =>
        if ¬ e.logOpenOk then
          (.error "Failed to open local API log", st, none)
        else
          match e.spawnResult with
          | none =>
            (.error "Failed to launch local API",
             { st with token := some (st.token.getD e.freshToken) }, none)
          | some child =>
            (.ok (),
             { child := some child, token := some (st.token.getD e.freshToken) },
             some { program := nodeBinary,
                    args := [sanitizePathForNode (sidecarScriptPath e)],
                    envs := sidecarEnvList e (st.token.getD e.freshToken),
                    cwd := e.parentOf (sidecarScriptPath e) })

/-- Embedding of `stop_local_api`: take the child out of the slot and kill
it; the second component lists the pids killed. -/
def stopLocalApi (st : ApiState) : ApiState × List Nat :=
  match st.child with
  | some child => ({ st with child := none }, [child.pid])
  | none => (st, [])

/-- The run events of the `tauri::Builder::run` closure. -/
inductive RunEv where
  | windowCloseRequested (label : String)
  | reopen
  | windowFocused (label : String) (focused : Bool)
  | exitRequested
  | exitNow
  | other
deriving DecidableEq

/-- Embedding of the run-event handler in `main`: `ExitRequested` and
`Exit` invoke `stop_local_api`; the window-management arms do not touch
the `LocalApiState`. -/
def handleRunEvent (ev : RunEv) (st : ApiState) : ApiState × List Nat :=
  match ev with
  | .exitRequested => stopLocalApi st
  | .exitNow => stopLocalApi st
  | _ => (st, [])

/-- C2: the child slot holds at most one child, and `start_local_api` with
a child already recorded returns `Ok(())` without spawning or changing
state. -/
theorem start_local_api_single_child (e : Env) (st : ApiState) (c : Child)
    (h : st.child = some c) :
    startLocalApi e st = (.ok (), st, none) := by
  unfold startLocalApi
  rw [h]

theorem start_local_api_single_child_witness :
    startLocalApi sampleEnv ⟨some ⟨3⟩, some "t"⟩ = (.ok (), ⟨some ⟨3⟩, some "t"⟩, none) :=
  start_local_api_single_child sampleEnv ⟨some ⟨3⟩, some "t"⟩ ⟨3⟩ rfl

theorem envGet_eq_none_of_keys_ne (ys : List (String × String)) (k : String)
    (h : ∀ p ∈ ys, p.1 ≠ k) : envGet ys k = none := by
  induction ys with
  | nil => rfl
  | cons p rest ih =>
    simp only [envGet, ih (fun q hq => h q (List.mem_cons_of_mem _ hq))]
    rw [if_neg (fun hc => h p (List.mem_cons_self p rest) (by simpa using hc))]

theorem envGet_append_right_none (xs ys : List (String × String)) (k : String)
    (h : envGet ys k = none) : envGet (xs ++ ys) k = envGet xs k := by
  induction xs with
  | nil => simpa using h
  | cons p xs ih => simp only [List.cons_append, envGet, List.append_eq, ih]

theorem envGet_append_right_some (xs ys : List (String × String)) (k v : String)
    (h : envGet ys k = some v) : envGet (xs ++ ys) k = some v := by
  induction xs with
  | nil => simpa using h
  | cons p xs ih => simp only [List.cons_append, envGet, List.append_eq, ih]

theorem envGet_of_mem_nodup (xs : List (String × String)) (k v : String)
    (hmem : (k, v) ∈ xs) (hnodup : (xs.map Prod.fst).Nodup) :
    envGet xs k = some v := by
  induction xs with
  | nil => cases hmem
  | cons p rest ih =>
    rw [List.map_cons, List.nodup_cons] at hnodup
    obtain ⟨hhead, htail⟩ := hnodup
    rcases List.mem_cons.mp hmem with heq | hmem'
    · have hrest : envGet rest k = none := by
        apply envGet_eq_none_of_keys_ne
        intro q hq hqk
        apply hhead
        rw [← heq]
        show k ∈ List.map Prod.fst rest
        rw [← hqk]
        exact List.mem_map_of_mem Prod.fst hq
      simp only [envGet, hrest]
      rw [← heq]
      rw [if_pos (by simp)]
    · simp only [envGet, ih hmem' htail]

theorem convexEnvEntry_keys (e : Env) :
    ∀ p ∈ convexEnvEntry e, p.1 = "CONVEX_URL" := by
  intro p hp
  unfold convexEnvEntry at hp
  cases hcb : e.convexBuild with
  | some url =>
    rw [hcb] at hp
    rcases List.mem_singleton.mp hp with rfl
    rfl
  | none =>
    rw [hcb] at hp
    cases hcr : e.convexRuntime with
    | some url =>
      rw [hcr] at hp
      rcases List.mem_singleton.mp hp with rfl
      rfl
    | none =>
      rw [hcr] at hp
      cases hp

theorem supported_keys_not_reserved :
    ∀ k ∈ supportedSecretKeys,
      k ≠ "LOCAL_API_PORT" ∧ k ≠ "LOCAL_API_RESOURCE_DIR" ∧
      k ≠ "LOCAL_API_MODE" ∧ k ≠ "LOCAL_API_TOKEN" ∧ k ≠ "CONVEX_URL" := by
  decide

/-- C5: when `start_local_api` spawns, the child environment contains
every cached secret, `LOCAL_API_TOKEN` set to the (first-start generated,
afterwards reused) token, `LOCAL_API_PORT = "46123"`,
`LOCAL_API_RESOURCE_DIR` set to the sanitized resource root, and
`LOCAL_API_MODE = "tauri-sidecar"`. -/
theorem start_local_api_child_env (e : Env) (st : ApiState) (ch : Child) (nb : String)
    (hchild : st.child = none)
    (hscript : e.pathExists (sidecarScriptPath e) = true)
    (hnode : resolveNodeBinary e = some nb)
    (hlog : e.logOpenOk = true)
    (hspawn : e.spawnResult = some ch)
    (hkeys : ∀ p ∈ e.secrets, p.1 ∈ supportedSecretKeys)
    (hnodup : (e.secrets.map Prod.fst).Nodup) :
    ∃ sp : SpawnRec,
      startLocalApi e st =
        (.ok (), ⟨some ch, some (st.token.getD e.freshToken)⟩, some sp) ∧
      envGet sp.envs "LOCAL_API_TOKEN" = some (st.token.getD e.freshToken) ∧
      envGet sp.envs "LOCAL_API_PORT" = some "46123" ∧
      envGet sp.envs "LOCAL_API_RESOURCE_DIR" =
        some (sanitizePathForNode (localApiPaths e).2) ∧
      envGet sp.envs "LOCAL_API_MODE" = some "tauri-sidecar" ∧
      (∀ p ∈ e.secrets, envGet sp.envs p.1 = some p.2) ∧
      (st.token = none → (startLocalApi e st).2.1.token = some e.freshToken) ∧
      (∀ t, st.token = some t → (startLocalApi e st).2.1.token = some t) := by
  have hstart : startLocalApi e st =
      (.ok (), ⟨some ch, some (st.token.getD e.freshToken)⟩,
       some ⟨nb, [sanitizePathForNode (sidecarScriptPath e)],
             sidecarEnvList e (st.token.getD e.freshToken),
             e.parentOf (sidecarScriptPath e)⟩) := by
    unfold startLocalApi
    rw [hchild, hnode, hspawn]
    simp [hscript, hlog]
  have hconvex_none : ∀ k : String, k ≠ "CONVEX_URL" →
      envGet (convexEnvEntry e) k = none := by
    intro k hk
    apply envGet_eq_none_of_keys_ne
    intro q hq
    rw [convexEnvEntry_keys e q hq]
    exact Ne.symm hk
  have hsecrets_none : ∀ k : String, k ∉ supportedSecretKeys →
      envGet e.secrets k = none := by
    intro k hk
    apply envGet_eq_none_of_keys_ne
    intro q hq hqk
    exact hk (hqk ▸ hkeys q hq)
  have hreserved : ∀ K : String, K ∉ supportedSecretKeys → K ≠ "CONVEX_URL" →
      envGet (sidecarEnvList e (st.token.getD e.freshToken)) K =
      envGet [("LOCAL_API_PORT", localApiPort),
              ("LOCAL_API_RESOURCE_DIR", sanitizePathForNode (apiDirRoot e)),
              ("LOCAL_API_MODE", "tauri-sidecar"),
              ("LOCAL_API_TOKEN", st.token.getD e.freshToken)] K := by
    intro K h1 h2
    unfold sidecarEnvList
    rw [envGet_append_right_none _ _ _ (hconvex_none K h2)]
    rw [envGet_append_right_none _ _ _ (hsecrets_none K h1)]
  refine ⟨_, hstart, ?_, ?_, ?_, ?_, ?_, ?_, ?_⟩
  · rw [hreserved "LOCAL_API_TOKEN" (by decide) (by decide)]
    rfl
  · rw [hreserved "LOCAL_API_PORT" (by decide) (by decide)]
    rfl
  · rw [hreserved "LOCAL_API_RESOURCE_DIR" (by decide) (by decide)]
    rfl
  · rw [hreserved "LOCAL_API_MODE" (by decide) (by decide)]
    rfl
  · intro p hp
    show envGet (sidecarEnvList e (st.token.getD e.freshToken)) p.1 = some p.2
    have hpk := hkeys p hp
    have hpc : p.1 ≠ "CONVEX_URL" :=
      (supported_keys_not_reserved p.1 hpk).2.2.2.2
    unfold sidecarEnvList
    rw [envGet_append_right_none _ _ _ (hconvex_none p.1 hpc)]
    apply envGet_append_right_some
    apply envGet_of_mem_nodup _ _ _ _ hnodup
    simpa using hp
  · intro ht
    rw [hstart]
    show some (st.token.getD e.freshToken) = _
    rw [ht]
    rfl
  · intro t ht
    rw [hstart]
    show some (st.token.getD e.freshToken) = _
    rw [ht]
    rfl

theorem start_local_api_child_env_witness :
    ∃ sp : SpawnRec,
      startLocalApi sampleEnv ⟨none, none⟩ =
        (.ok (), ⟨some ⟨7⟩, some "tok0"⟩, some sp) ∧
      envGet sp.envs "LOCAL_API_TOKEN" = some "tok0" := by
  obtain ⟨sp, h1, h2, _⟩ := start_local_api_child_env sampleEnv ⟨none, none⟩ ⟨7⟩
    "/usr/bin/node" rfl (by decide) (by decide) rfl rfl (by decide) (by decide)
  exact ⟨sp, h1, h2⟩

/-- C6: `ExitRequested` and `Exit` run events invoke `stop_local_api`: a
recorded child is killed and the child slot becomes `none`, so the
application never exits with a sidecar child still recorded. -/
theorem run_exit_stops_sidecar (ev : RunEv) (st : ApiState)
    (h : ev = RunEv.exitRequested ∨ ev = RunEv.exitNow) :
    handleRunEvent ev st = stopLocalApi st ∧
    (handleRunEvent ev st).1.child = none ∧
    (∀ c, st.child = some c → (handleRunEvent ev st).2 = [c.pid]) ∧
    (handleRunEvent ev st).1.token = st.token := by
  have heq : handleRunEvent ev st = stopLocalApi st := by
    rcases h with rfl | rfl <;> rfl
  rw [heq]
  refine ⟨rfl, ?_, ?_, ?_⟩
  · obtain ⟨oc, ot⟩ := st
    cases oc <;> rfl
  · intro c hc
    obtain ⟨oc, ot⟩ := st
    have hc' : oc = some c := hc
    subst hc'
    rfl
  · obtain ⟨oc, ot⟩ := st
    cases oc <;> rfl

theorem run_exit_stops_sidecar_witness :
    handleRunEvent RunEv.exitRequested ⟨some ⟨9⟩, some "t"⟩ = (⟨none, some "t"⟩, [9]) := by
  have h := run_exit_stops_sidecar RunEv.exitRequested ⟨some ⟨9⟩, some "t"⟩ (Or.inl rfl)
  rw [h.1]
  rfl

end WorldMonitor
